import Mathlib

/-!
Shallow embedding of `tcconfig/parser/shaping_rule.py`
(`TcShapingRuleParser`), the reconstruction engine that re-assembles
qdisc / class / filter records and firewall mangle rules into a nested
shaping-rule mapping.

Python dictionaries are modelled as insertion-ordered association lists
with the usual dict semantics (`get`, `d[k] = v`, `update`, `del`);
record field values are modelled by the tagged type `PValue`
(absent / integer / string), following the record shapes of the design
document. Fallible Python code (raised exceptions) is modelled with
`Except PErr`.
-/

namespace TcShaping

/-- A Python value stored in a parsed record: an integer, a string, or
`None`. A key that is absent from a dict is modelled by `getVal` returning
`Option.none`; a key present with value `None` is `.vNone`. -/
inductive PValue where
  | vInt (n : Int)
  | vStr (s : String)
  | vNone
deriving DecidableEq, Repr

/-- A parsed record (Python dict), insertion ordered. -/
abbrev ParamMap := List (String × PValue)

/-- `d.get(k)` presence test: `some v` iff key `k` is present (first
occurrence). -/
def getVal {α : Type} : List (String × α) → String → Option α
  | [], _ => none
  | (k, v) :: rest, key => if k = key then some v else getVal rest key

/-- Python `d[k] = v`: replace in place if the key is present, else append. -/
def setVal {α : Type} : List (String × α) → String → α → List (String × α)
  | [], key, val => [(key, val)]
  | (k, v) :: rest, key, val =>
      if k = key then (key, val) :: rest else (k, v) :: setVal rest key val

/-- Python `d.update(e)`: assign every pair of `e`, in order, into `d`. -/
def updateMap {α : Type} (d e : List (String × α)) : List (String × α) :=
  e.foldl (fun acc p => setVal acc p.1 p.2) d

/-- Remove a key from a dict (order of the other entries preserved). -/
def delKey {α : Type} (k : String) : List (String × α) → List (String × α)
  | [] => []
  | (k', v) :: rest =>
      if k' = k then delKey k rest else (k', v) :: delKey k rest

/-- Python `d.get(k)` with default `None`: absent keys read as `None`. -/
def pyGet (d : ParamMap) (k : String) : PValue := (getVal d k).getD .vNone

/-- Modelled from the spec: parameter key names of `tcconfig/_const.py`
(`Tc.Param`), which is not under src/; the names follow the spec's data
model (§3) and glossary. Only distinctness and identity of these strings
matter to the engine. -/
def SRC_NETWORK : String := "src-network"

def DST_NETWORK : String := "dst-network"

def SRC_PORT : String := "src-port"

def DST_PORT : String := "dst-port"

def PROTOCOL : String := "protocol"

def HANDLE : String := "handle"

def PARENT : String := "parent"

def FLOW_ID : String := "flowid"

def CLASS_ID : String := "classid"

/-- Modelled from the spec: `TrafficDirection.OUTGOING` of
`tcconfig/_const.py` (not under src/). -/
def OUTGOING : String := "outgoing"

/-- Modelled from the spec: `TrafficDirection.INCOMING` of
`tcconfig/_const.py` (not under src/). -/
def INCOMING : String := "incoming"

/-- One firewall packet-marking rule, as produced by
`IptablesMangleController.parse()` (spec §3, MangleRule): a numeric mark,
an optional source network, a destination network and a protocol. -/
structure MangleRule where
  mark_id : Int
  source : Option String
  destination : String
  protocol : String
deriving DecidableEq, Repr

/-- The exceptions the embedded code can raise. -/
inductive PErr where
  /-- `ValueError("mangle mark not found: ...")`: the message formats the
  loop variable `mangle`, i.e. the last mangle rule scanned. -/
  | unmatchedMark (last : MangleRule)
  /-- The `for ... else` raise path with an empty mangle table: the loop
  variable `mangle` was never bound, so the name lookup itself fails
  (Python `UnboundLocalError`) before any `ValueError` is built. -/
  | unboundLocal
  /-- `typepy` validation failure (`Integer(...).validate()`) or a
  `"{:d}"` / `"{:s}"` format applied to a value of the wrong type. -/
  | typeError
  /-- `del d[k]` with `k` absent. -/
  | keyError (k : String)
deriving DecidableEq, Repr

/-- A string is blank when every character is whitespace (the stripped
form is empty); this is `typepy`'s null-string test. -/
def isBlank (s : String) : Bool := s.data.all Char.isWhitespace

/-- `typepy.is_not_null_string(v)`: `v` is a string whose stripped form is
non-empty. -/
def is_not_null_string (v : PValue) : Bool :=
  match v with
  | .vStr s => !isBlank s
  | _ => false

/-- `typepy.is_not_null_string` on an optional plain string (mangle-rule
source field). -/
def isNotNullOptStr (s : Option String) : Bool :=
  match s with
  | some s => !isBlank s
  | none => false

/-- The numeric value of a decimal digit. -/
def digitVal (c : Char) : Option Nat :=
  if c.isDigit then some (c.toNat - '0'.toNat) else none

/-- Parse a non-empty all-digit character list as a natural number. -/
def parseNatChars (cs : List Char) : Option Nat :=
  match cs with
  | [] => none
  | _ =>
      cs.foldl
        (fun acc c => acc.bind fun n => (digitVal c).map fun d => n * 10 + d)
        (some 0)

/-- Python `int(s)` on a string: an optional sign followed by decimal
digits; anything else fails. -/
def parseIntStr (s : String) : Option Int :=
  match s.data with
  | '-' :: rest => (parseNatChars rest).map fun n => -(n : Int)
  | '+' :: rest => (parseNatChars rest).map fun n => (n : Int)
  | cs => (parseNatChars cs).map fun n => (n : Int)

/-- `typepy.type.Integer(v).is_type()` (moderate strictness): an integer,
or a string that parses as one. -/
def is_integer_type (v : PValue) : Bool :=
  match v with
  | .vInt _ => true
  | .vStr s => (parseIntStr s).isSome
  | .vNone => false

/-- `Integer(handle).validate()` followed by `int(handle)`. -/
def toHandleInt (v : PValue) : Except PErr Int :=
  match v with
  | .vInt n => .ok n
  | .vStr s =>
      match parseIntStr s with
      | some n => .ok n
      | none => .error .typeError
  | .vNone => .error .typeError

/-- `"{:s}".format(v)`: requires a string. -/
def formatS (v : PValue) : Except PErr String :=
  match v with
  | .vStr s => .ok s
  | _ => .error .typeError

/-- `"{:d}".format(v)`: requires an integer; renders it in decimal. -/
def formatD (v : PValue) : Except PErr String :=
  match v with
  | .vInt n => .ok (toString n)
  | _ => .error .typeError

/-- Modelled from the spec: `is_anywhere_network` of `tcconfig/_common.py`
(not under src/). Per the spec (§4.5.2.a), it decides whether a network
string denotes the any-address network for the active IP version. -/
def is_anywhere_network (network : String) (ip_version : Nat) : Bool :=
  if ip_version = 4 then decide (network = "0.0.0.0/0")
  else decide (network = "::/0")

/-- `is_anywhere_network` applied to a record value (the source passes the
raw value; the guard in the caller ensures it is a string). -/
def is_anywhere_pv (v : PValue) (ip_version : Nat) : Bool :=
  match v with
  | .vStr s => is_anywhere_network s ip_version
  | _ => false

/-- `typepy.is_null_string` on a plain string (used on the built filter
key). -/
def is_null_str (s : String) : Bool := isBlank s

/-- `typepy.is_null_string(device)`: the device is `None` or a blank
string. -/
def is_null_dev : Option String → Bool
  | none => true
  | some s => isBlank s

/-- The key items contributed by a matched mangle rule
(`__get_filter_key`, handle branch, loop body): destination network
always, source network when non-null, then protocol. -/
def mangle_key_items (m : MangleRule) : List String :=
  [DST_NETWORK ++ "=" ++ m.destination]
    ++ (if isNotNullOptStr m.source
        then [SRC_NETWORK ++ "=" ++ m.source.getD ""] else [])
    ++ [PROTOCOL ++ "=" ++ m.protocol]

/-- The `for mangle in self.__iptables_ctrl.parse(): ... break / else:
raise` loop: return the first rule whose `mark_id` equals the handle; with
no match, raise naming the loop variable — the last rule scanned — or fail
on the unbound loop variable when the table is empty. -/
def find_mark_rule (handle : Int) : List MangleRule → Except PErr MangleRule
  | [] => .error .unboundLocal
  | m :: rest =>
      if m.mark_id = handle then .ok m
      else
        match rest with
        | [] => .error (.unmatchedMark m)
        | _ :: _ => find_mark_rule handle rest

/-- `__get_filter_key`, handle-less branch, first append: the source
network, unless null or the anywhere network for the active IP version. -/
def src_network_items (ip_version : Nat) (fp : ParamMap) :
    Except PErr (List String) :=
  if is_not_null_string (pyGet fp SRC_NETWORK)
      && !is_anywhere_pv (pyGet fp SRC_NETWORK) ip_version then do
    let s ← formatS (pyGet fp SRC_NETWORK)
    pure [SRC_NETWORK ++ "=" ++ s]
  else pure []

/-- `__get_filter_key`, handle-less branch, second append: the destination
network when non-null. -/
def dst_network_items (fp : ParamMap) : Except PErr (List String) :=
  if is_not_null_string (pyGet fp DST_NETWORK) then do
    let s ← formatS (pyGet fp DST_NETWORK)
    pure [DST_NETWORK ++ "=" ++ s]
  else pure []

/-- `__get_filter_key`, handle-less branch, third append: the source port
when integer-typed. -/
def src_port_items (fp : ParamMap) : Except PErr (List String) :=
  if is_integer_type (pyGet fp SRC_PORT) then do
    let s ← formatD (pyGet fp SRC_PORT)
    pure [SRC_PORT ++ "=" ++ s]
  else pure []

/-- `__get_filter_key`, handle-less branch, fourth append: the destination
port when integer-typed. -/
def dst_port_items (fp : ParamMap) : Except PErr (List String) :=
  if is_integer_type (pyGet fp DST_PORT) then do
    let s ← formatD (pyGet fp DST_PORT)
    pure [DST_PORT ++ "=" ++ s]
  else pure []

/-- `__get_filter_key`, handle-less branch, fifth append: the protocol
when non-null. -/
def protocol_items (fp : ParamMap) : Except PErr (List String) :=
  if is_not_null_string (pyGet fp PROTOCOL) then do
    let s ← formatS (pyGet fp PROTOCOL)
    pure [PROTOCOL ++ "=" ++ s]
  else pure []

/-- The handle-less branch of `__get_filter_key`: source network (unless
null or the anywhere network), destination network, source port,
destination port, protocol — each appended only when present/typed, in
source order. -/
def direct_key_items (ip_version : Nat) (fp : ParamMap) :
    Except PErr (List String) := do
  let srcItems ← src_network_items ip_version fp
  let dstItems ← dst_network_items fp
  let spItems ← src_port_items fp
  let dpItems ← dst_port_items fp
  let prItems ← protocol_items fp
  pure (srcItems ++ dstItems ++ spItems ++ dpItems ++ prItems)

/-- `__get_filter_key`, producing the key item list before joining. -/
def filter_key_items (mangles : List MangleRule) (ip_version : Nat)
    (fp : ParamMap) : Except PErr (List String) :=
  if (getVal fp HANDLE).isSome then do
    let handle ← toHandleInt (pyGet fp HANDLE)
    let m ← find_mark_rule handle mangles
    pure (mangle_key_items m)
  else direct_key_items ip_version fp

/-- `TcShapingRuleParser.__get_filter_key`: `", ".join(key_item_list)`. -/
def get_filter_key (mangles : List MangleRule) (ip_version : Nat)
    (fp : ParamMap) : Except PErr String :=
  (filter_key_items mangles ip_version fp).map (String.intercalate ", ")

/-- The qdisc-side join condition (`__get_shaping_rule`, first inner
loop): the qdisc's `parent` equals the filter's `flowid` or `classid`
(Python `in` over the 2-tuple of `dict.get` results). -/
def qdisc_matches (fp q : ParamMap) : Bool :=
  decide (pyGet q PARENT = pyGet fp FLOW_ID)
    || decide (pyGet q PARENT = pyGet fp CLASS_ID)

/-- The class-side join condition (`__get_shaping_rule`, second inner
loop): the class's `classid` equals the filter's `flowid` or `classid`. -/
def class_matches (fp c : ParamMap) : Bool :=
  decide (pyGet c CLASS_ID = pyGet fp FLOW_ID)
    || decide (pyGet c CLASS_ID = pyGet fp CLASS_ID)

/-- `TcShapingRuleParser.__strip_qdisc_param`: deep-copy, then delete
`parent` and `handle`, each tolerating absence. -/
def strip_qdisc_param (q : ParamMap) : ParamMap :=
  delKey HANDLE (delKey PARENT q)

/-- `del d[k]` on a (deep-copied) dict: `KeyError` when absent. -/
def delKeyE (k : String) (d : ParamMap) : Except PErr ParamMap :=
  if (getVal d k).isSome then .ok (delKey k d) else .error (.keyError k)

/-- One iteration of the qdisc loop of `__get_shaping_rule`: skip
non-matching qdisc records, else merge the stripped parameters into the
accumulator. -/
def qdisc_merge_step (fp acc q : ParamMap) : ParamMap :=
  if qdisc_matches fp q then updateMap acc (strip_qdisc_param q) else acc

/-- One iteration of the class loop of `__get_shaping_rule`: skip
non-matching class records, else delete `classid` from a deep copy and
merge it into the accumulator. -/
def class_merge_step (fp acc c : ParamMap) : Except PErr ParamMap :=
  if class_matches fp c then do
    let w ← delKeyE CLASS_ID c
    pure (updateMap acc w)
  else pure acc

/-- The parameter join of `__get_shaping_rule` for one filter record: fold
the matching qdisc records' stripped parameters into the accumulator, then
the matching class records' parameters with `classid` deleted (on a deep
copy). -/
def shaping_rule_for (qdiscs classes : List ParamMap) (fp : ParamMap) :
    Except PErr ParamMap :=
  classes.foldlM (class_merge_step fp) (qdiscs.foldl (qdisc_merge_step fp) [])

/-- The output mapping of one direction: FilterKey → merged parameters. -/
abbrev RuleMap := List (String × ParamMap)

/-- The body of the `for filter_param in filter_param_list` loop of
`__get_shaping_rule`: resolve the key, skip null keys, join, skip empty
joins, else record the rule under the key. -/
def srm_step (mangles : List MangleRule) (ip_version : Nat)
    (qdiscs classes : List ParamMap) (m : RuleMap) (fp : ParamMap) :
    Except PErr RuleMap := do
  let filter_key ← get_filter_key mangles ip_version fp
  if is_null_str filter_key then pure m
  else do
    let shaping_rule ← shaping_rule_for qdiscs classes fp
    if shaping_rule = [] then pure m
    else pure (setVal m filter_key shaping_rule)

/-- `TcShapingRuleParser.__get_shaping_rule`: empty mapping for a null
device, otherwise fold the filter records of this device's parse over
`srm_step`. The class/filter/qdisc record lists are the values returned by
this device's three parse calls. -/
def get_shaping_rule (mangles : List MangleRule) (ip_version : Nat)
    (device : Option String) (classes filters qdiscs : List ParamMap) :
    Except PErr RuleMap :=
  if is_null_dev device then .ok []
  else filters.foldlM (srm_step mangles ip_version qdiscs classes) []

/-- The per-device direction mapping. -/
abbrev DirMap := List (String × RuleMap)

/-- `TcShapingRuleParser.get_tc_parameter`: the OUTGOING entry is the
shaping rule of the device itself, the INCOMING entry that of the resolved
IFB device (a null IFB short-circuits to the empty mapping). The dict
literal evaluates the OUTGOING value first. Each direction's
`__get_shaping_rule` call consumes the class/filter/qdisc records parsed
for that direction's device. -/
def get_tc_parameter (mangles : List MangleRule) (ip_version : Nat)
    (device : String) (ifb_device : Option String)
    (oClasses oFilters oQdiscs iClasses iFilters iQdiscs : List ParamMap) :
    Except PErr (List (String × DirMap)) := do
  let outgoing ← get_shaping_rule mangles ip_version (some device)
    oClasses oFilters oQdiscs
  let incoming ← get_shaping_rule mangles ip_version ifb_device
    iClasses iFilters iQdiscs
  pure [(device, [(OUTGOING, outgoing), (INCOMING, incoming)])]

/-! ### Auxiliary notions used by the statements -/

/-- The keys of a dict, in order. -/
def keysOf {α : Type} (d : List (String × α)) : List String := d.map Prod.fst

/-- A dict is well formed when its keys are pairwise distinct. -/
def nodupKeys {α : Type} (d : List (String × α)) : Prop := (keysOf d).Nodup

/-- The number of entries of a mapping carrying a given key. -/
def countKey {α : Type} (d : List (String × α)) (k : String) : Nat :=
  (keysOf d).count k

/-- The value of the LAST pair of an association list carrying key `k`
(the value `dict.update` would leave for `k`). -/
def assocLast {α : Type} (k : String) : List (String × α) → Option α
  | [] => none
  | (k', v) :: rest =>
      match assocLast k rest with
      | some w => some w
      | none => if k' = k then some v else none

/-- First-of-two option choice. -/
def orO {α : Type} : Option α → Option α → Option α
  | some w, _ => some w
  | none, fb => fb

/-- The merged parameter mapping of one filter record, written as the spec
describes it: the union of the discipline parameters of every matching
qdisc record (with `parent` and `handle` removed), updated by the
discipline parameters of every matching class record (with `classid`
removed); matches are taken in list order and class records are merged
after qdisc records. -/
def merged_params_spec (qdiscs classes : List ParamMap) (fp : ParamMap) :
    ParamMap :=
  (((classes.filter fun c => class_matches fp c).map (delKey CLASS_ID)).foldl
    updateMap
    (((qdiscs.filter fun q => qdisc_matches fp q).map strip_qdisc_param).foldl
      updateMap []))

/-- The class-derived part of the merge alone (spec wording): the union of
the matching class records' parameters with `classid` removed. -/
def class_part_spec (classes : List ParamMap) (fp : ParamMap) : ParamMap :=
  ((classes.filter fun c => class_matches fp c).map (delKey CLASS_ID)).foldl
    updateMap []

/-- The field name of a key item: the characters before the first `=`. -/
def itemField (item : String) : List Char :=
  item.data.takeWhile fun c => c ≠ '='

/-- The position a key item's field takes in the order the spec demands:
source network, dest network, source port, dest port, protocol. -/
def key_field_index (item : String) : Nat :=
  if itemField item = SRC_NETWORK.data then 0
  else if itemField item = DST_NETWORK.data then 1
  else if itemField item = SRC_PORT.data then 2
  else if itemField item = DST_PORT.data then 3
  else 4

/-! ### Association-list lemmas -/

theorem getVal_setVal_self {α : Type} (d : List (String × α)) (k : String)
    (v : α) : getVal (setVal d k v) k = some v := by
  induction d with
  | nil => simp [setVal, getVal]
  | cons p rest ih =>
    obtain ⟨k', v'⟩ := p
    by_cases h : k' = k
    · simp [setVal, h, getVal]
    · simp [setVal, h, getVal, ih]

theorem getVal_setVal_ne {α : Type} (d : List (String × α)) {k k' : String}
    (v : α) (h : k' ≠ k) : getVal (setVal d k v) k' = getVal d k' := by
  have hkk : ¬k = k' := fun hh => h hh.symm
  induction d with
  | nil => simp [setVal, getVal, hkk]
  | cons p rest ih =>
    obtain ⟨k0, v0⟩ := p
    by_cases h0 : k0 = k
    · subst h0
      simp [setVal, getVal, hkk]
    · simp only [setVal, if_neg h0, getVal]
      by_cases h1 : k0 = k'
      · simp [h1]
      · simp [h1, ih]

theorem getVal_isSome_iff {α : Type} (d : List (String × α)) (k : String) :
    (getVal d k).isSome ↔ k ∈ keysOf d := by
  induction d with
  | nil => simp [getVal, keysOf]
  | cons p rest ih =>
    obtain ⟨k', v'⟩ := p
    by_cases h : k' = k
    · simp [getVal, h, keysOf]
    · simp only [getVal, if_neg h, keysOf, List.map_cons, List.mem_cons]
      simp only [keysOf] at ih
      rw [ih]
      constructor
      · intro hm
        exact Or.inr hm
      · rintro (hm | hm)
        · exact absurd hm.symm h
        · exact hm

theorem getVal_eq_none_key_ne {α : Type} {d : List (String × α)}
    {k : String} (h : getVal d k = none) : ∀ p ∈ d, p.1 ≠ k := by
  intro p hp hk
  have : k ∈ keysOf d := List.mem_map.mpr ⟨p, hp, hk⟩
  have hs := (getVal_isSome_iff d k).mpr this
  rw [h] at hs
  simp at hs

theorem keysOf_setVal {α : Type} (d : List (String × α)) (k : String)
    (v : α) :
    keysOf (setVal d k v) =
      if k ∈ keysOf d then keysOf d else keysOf d ++ [k] := by
  induction d with
  | nil => simp [setVal, keysOf]
  | cons p rest ih =>
    obtain ⟨k', v'⟩ := p
    by_cases h : k' = k
    · subst h
      simp [setVal, keysOf]
    · have hne : ¬k = k' := fun hh => h hh.symm
      simp only [setVal, if_neg h, keysOf, List.map_cons] at ih ⊢
      rw [ih]
      by_cases hm : k ∈ List.map Prod.fst rest
      · rw [if_pos hm, if_pos (List.mem_cons.mpr (Or.inr hm))]
      · have hc : k ∉ k' :: List.map Prod.fst rest := by
          intro hc
          rcases List.mem_cons.mp hc with hc | hc
          · exact hne hc
          · exact hm hc
        rw [if_neg hm, if_neg hc, List.cons_append]

theorem nodupKeys_setVal {α : Type} {d : List (String × α)} (k : String)
    (v : α) (h : nodupKeys d) : nodupKeys (setVal d k v) := by
  unfold nodupKeys at h ⊢
  rw [keysOf_setVal]
  by_cases hm : k ∈ keysOf d
  · simpa [hm] using h
  · simp only [hm, if_false]
    exact List.Nodup.append h (List.nodup_singleton k) (by simpa using hm)

theorem mem_setVal {α : Type} :
    ∀ {d : List (String × α)} {k : String} {v : α} {p : String × α},
      p ∈ setVal d k v → p ∈ d ∨ p = (k, v) := by
  intro d
  induction d with
  | nil =>
    intro k v p h
    simp only [setVal, List.mem_singleton] at h
    exact Or.inr h
  | cons q rest ih =>
    obtain ⟨k', v'⟩ := q
    intro k v p h
    by_cases hk : k' = k
    · simp only [setVal, if_pos hk] at h
      rcases List.mem_cons.mp h with h | h
      · exact Or.inr h
      · exact Or.inl (List.mem_cons_of_mem _ h)
    · simp only [setVal, if_neg hk] at h
      rcases List.mem_cons.mp h with h | h
      · exact Or.inl (h ▸ List.mem_cons_self _ _)
      · rcases ih h with h | h
        · exact Or.inl (List.mem_cons_of_mem _ h)
        · exact Or.inr h

theorem mem_updateMap {α : Type} :
    ∀ {e d : List (String × α)} {p : String × α},
      p ∈ updateMap d e → p ∈ d ∨ p ∈ e := by
  intro e
  induction e with
  | nil => intro d p h; exact Or.inl h
  | cons x e ih =>
    intro d p h
    have h' : p ∈ updateMap (setVal d x.1 x.2) e := h
    rcases ih h' with h1 | h1
    · rcases mem_setVal h1 with h2 | h2
      · exact Or.inl h2
      · exact Or.inr (List.mem_cons.mpr (Or.inl h2))
    · exact Or.inr (List.mem_cons_of_mem _ h1)

theorem mem_delKey {α : Type} {k : String} :
    ∀ {d : List (String × α)} {p : String × α},
      p ∈ delKey k d → p ∈ d ∧ p.1 ≠ k := by
  intro d
  induction d with
  | nil => intro p h; simp [delKey] at h
  | cons q rest ih =>
    obtain ⟨k', v'⟩ := q
    intro p h
    by_cases hk : k' = k
    · simp only [delKey, if_pos hk] at h
      exact ⟨List.mem_cons_of_mem _ (ih h).1, (ih h).2⟩
    · simp only [delKey, if_neg hk] at h
      rcases List.mem_cons.mp h with h | h
      · subst h
        exact ⟨List.mem_cons_self _ _, hk⟩
      · exact ⟨List.mem_cons_of_mem _ (ih h).1, (ih h).2⟩

theorem setVal_of_not_mem {α : Type} (v : α) {k : String} :
    ∀ {d : List (String × α)}, k ∉ keysOf d → setVal d k v = d ++ [(k, v)] := by
  intro d
  induction d with
  | nil => intro _; simp [setVal]
  | cons p rest ih =>
    obtain ⟨k', v'⟩ := p
    intro h
    simp only [keysOf, List.map_cons, List.mem_cons] at h
    push_neg at h
    have hne : ¬k' = k := fun hh => h.1 hh.symm
    simp only [setVal, if_neg hne, List.cons_append, List.cons.injEq, true_and]
    exact ih (by simpa [keysOf] using h.2)

theorem updateMap_disjoint {α : Type} :
    ∀ {e d : List (String × α)}, (∀ k ∈ keysOf e, k ∉ keysOf d) →
      nodupKeys e → updateMap d e = d ++ e := by
  intro e
  induction e with
  | nil => intro d _ _; simp [updateMap]
  | cons x e ih =>
    intro d hdisj hnd
    obtain ⟨k, v⟩ := x
    have hk : k ∉ keysOf d := hdisj k (List.mem_cons.mpr (Or.inl rfl))
    have hnd0 : (k :: keysOf e).Nodup := by
      simpa [nodupKeys, keysOf] using hnd
    have hknotine : k ∉ keysOf e := (List.nodup_cons.mp hnd0).1
    have hnd' : nodupKeys e := by
      simpa [nodupKeys, keysOf] using (List.nodup_cons.mp hnd0).2
    have hdisj' : ∀ k' ∈ keysOf e, k' ∉ keysOf (setVal d k v) := by
      intro k' hk'
      rw [keysOf_setVal, if_neg hk]
      intro hmem
      rcases List.mem_append.mp hmem with hmem | hmem
      · exact hdisj k' (List.mem_cons.mpr (Or.inr hk')) hmem
      · simp only [List.mem_singleton] at hmem
        exact hknotine (hmem ▸ hk')
    have h1 : updateMap d ((k, v) :: e) = updateMap (setVal d k v) e := rfl
    rw [h1, ih hdisj' hnd', setVal_of_not_mem v hk, List.append_assoc]
    rfl

theorem updateMap_nil_left {α : Type} {e : List (String × α)}
    (h : nodupKeys e) : updateMap ([] : List (String × α)) e = e := by
  rw [updateMap_disjoint (by simp [keysOf]) h]
  simp

theorem updateMap_append {α : Type} (d e1 e2 : List (String × α)) :
    updateMap d (e1 ++ e2) = updateMap (updateMap d e1) e2 :=
  List.foldl_append _ _ _ _

theorem foldl_updateMap_flatten {α : Type} :
    ∀ (L : List (List (String × α))) (d : List (String × α)),
      L.foldl updateMap d = updateMap d L.flatten := by
  intro L
  induction L with
  | nil => intro d; simp [updateMap]
  | cons b L ih =>
    intro d
    have h1 : (b :: L).foldl updateMap d = L.foldl updateMap (updateMap d b) :=
      rfl
    rw [h1, ih, List.flatten_cons, updateMap_append]

theorem getVal_updateMap {α : Type} :
    ∀ (e d : List (String × α)) (k : String),
      getVal (updateMap d e) k = orO (assocLast k e) (getVal d k) := by
  intro e
  induction e with
  | nil => intro d k; simp [updateMap, assocLast, orO]
  | cons x e ih =>
    intro d k
    obtain ⟨k1, v1⟩ := x
    have h1 : updateMap d ((k1, v1) :: e) = updateMap (setVal d k1 v1) e := rfl
    rw [h1, ih]
    cases hA : assocLast k e with
    | some w => simp [assocLast, hA, orO]
    | none =>
      by_cases hk : k1 = k
      · subst hk
        simp [assocLast, hA, orO, getVal_setVal_self]
      · have hkk : k ≠ k1 := fun hh => hk hh.symm
        simp [assocLast, hA, orO, hk, getVal_setVal_ne d v1 hkk]

/-- Generic fold/filter exchange: a fold that skips non-matching elements
equals a fold of the mapped, filtered list. -/
theorem foldl_if_filter {α β γ : Type} (P : β → Bool) (f : β → γ)
    (g : α → γ → α) :
    ∀ (l : List β) (acc : α),
      l.foldl (fun a x => if P x then g a (f x) else a) acc
        = ((l.filter P).map f).foldl g acc := by
  intro l
  induction l with
  | nil => intro acc; simp
  | cons x l ih =>
    intro acc
    cases hP : P x <;>
      simp [List.foldl_cons, hP, List.filter_cons, ih]

/-- Generic invariant preservation along a monadic fold over `Except`. -/
theorem except_foldlM_inv {α β ε : Type} (f : β → α → Except ε β)
    (P : β → Prop) (hstep : ∀ b a b', P b → f b a = .ok b' → P b') :
    ∀ (l : List α) (b b' : β), P b → l.foldlM f b = .ok b' → P b' := by
  intro l
  induction l with
  | nil =>
    intro b b' hb h
    rw [List.foldlM_nil] at h
    cases h
    exact hb
  | cons a l ih =>
    intro b b' hb h
    rw [List.foldlM_cons] at h
    cases hf : f b a with
    | error e =>
      rw [hf] at h
      have h' : (Except.error e : Except ε β) = .ok b' := h
      cases h'
    | ok b1 =>
      rw [hf] at h
      exact ih b1 b' (hstep b a b1 hb hf) h

theorem countKey_eq_one {α : Type} {m : List (String × α)} {k : String}
    (hnd : nodupKeys m) (hs : (getVal m k).isSome) : countKey m k = 1 :=
  List.count_eq_one_of_mem hnd ((getVal_isSome_iff m k).mp hs)

/-! ### Characterizing the embedded folds -/

theorem class_foldlM_ok (fp : ParamMap) :
    ∀ (classes : List ParamMap) (acc r : ParamMap),
      classes.foldlM (class_merge_step fp) acc = .ok r →
      r = ((classes.filter fun c => class_matches fp c).map
            (delKey CLASS_ID)).foldl updateMap acc := by
  intro classes
  induction classes with
  | nil =>
    intro acc r h
    rw [List.foldlM_nil] at h
    cases h
    simp
  | cons c cs ih =>
    intro acc r h
    rw [List.foldlM_cons] at h
    cases hm : class_matches fp c with
    | true =>
      cases hd : getVal c CLASS_ID with
      | none =>
        have hstep : class_merge_step fp acc c =
            .error (.keyError CLASS_ID) := by
          simp [class_merge_step, hm, delKeyE, hd]
        rw [hstep] at h
        have h' : (Except.error (PErr.keyError CLASS_ID) :
            Except PErr ParamMap) = .ok r := h
        cases h'
      | some v =>
        have hstep : class_merge_step fp acc c =
            .ok (updateMap acc (delKey CLASS_ID c)) := by
          simp [class_merge_step, hm, delKeyE, hd]
        rw [hstep] at h
        have h2 := ih (updateMap acc (delKey CLASS_ID c)) r h
        rw [h2]
        simp [List.filter_cons, hm]
    | false =>
      have hstep : class_merge_step fp acc c = .ok acc := by
        simp only [class_merge_step, hm, Bool.false_eq_true, if_false]
        rfl
      rw [hstep] at h
      have h2 := ih acc r h
      rw [h2]
      simp [List.filter_cons, hm]

theorem shaping_rule_for_eq_spec {qdiscs classes : List ParamMap}
    {fp r : ParamMap} (h : shaping_rule_for qdiscs classes fp = .ok r) :
    r = merged_params_spec qdiscs classes fp := by
  unfold shaping_rule_for at h
  have hq : qdiscs.foldl (qdisc_merge_step fp) [] =
      ((qdiscs.filter fun q => qdisc_matches fp q).map
        strip_qdisc_param).foldl updateMap [] :=
    foldl_if_filter (fun q => qdisc_matches fp q) strip_qdisc_param
      updateMap qdiscs []
  rw [hq] at h
  exact class_foldlM_ok fp classes _ r h

theorem getVal_merged_class_part (qdiscs classes : List ParamMap)
    (fp : ParamMap) (k : String)
    (hs : (getVal (class_part_spec classes fp) k).isSome) :
    getVal (merged_params_spec qdiscs classes fp) k
      = getVal (class_part_spec classes fp) k := by
  cases hA : assocLast k
      ((classes.filter fun c => class_matches fp c).map
        (delKey CLASS_ID)).flatten with
  | none =>
    have h1 : getVal (class_part_spec classes fp) k = none := by
      unfold class_part_spec
      rw [foldl_updateMap_flatten, getVal_updateMap, hA]
      rfl
    rw [h1] at hs
    simp at hs
  | some w =>
    have h1 : getVal (class_part_spec classes fp) k = some w := by
      unfold class_part_spec
      rw [foldl_updateMap_flatten, getVal_updateMap, hA]
      rfl
    have h2 : getVal (merged_params_spec qdiscs classes fp) k = some w := by
      unfold merged_params_spec
      rw [foldl_updateMap_flatten, getVal_updateMap, hA]
      rfl
    rw [h1, h2]

theorem srm_step_cases {mangles : List MangleRule} {ipv : Nat}
    {qdiscs classes : List ParamMap} {m : RuleMap} {fp : ParamMap}
    {m' : RuleMap}
    (h : srm_step mangles ipv qdiscs classes m fp = .ok m') :
    m' = m ∨ ∃ k r, get_filter_key mangles ipv fp = .ok k ∧
      is_null_str k = false ∧ shaping_rule_for qdiscs classes fp = .ok r ∧
      r ≠ [] ∧ m' = setVal m k r := by
  unfold srm_step at h
  cases hk : get_filter_key mangles ipv fp with
  | error e =>
    rw [hk] at h
    have h' : (Except.error e : Except PErr RuleMap) = .ok m' := h
    cases h'
  | ok k =>
    rw [hk] at h
    have h1 : (if is_null_str k then (pure m : Except PErr RuleMap)
        else do
          let shaping_rule ← shaping_rule_for qdiscs classes fp
          if shaping_rule = [] then pure m
          else pure (setVal m k shaping_rule)) = .ok m' := h
    cases hnull : is_null_str k with
    | true =>
      rw [hnull] at h1
      simp only [if_true] at h1
      have h2 : (Except.ok m : Except PErr RuleMap) = .ok m' := h1
      cases h2
      exact Or.inl rfl
    | false =>
      rw [hnull] at h1
      simp only [Bool.false_eq_true, if_false] at h1
      cases hsr : shaping_rule_for qdiscs classes fp with
      | error e =>
        rw [hsr] at h1
        have h2 : (Except.error e : Except PErr RuleMap) = .ok m' := h1
        cases h2
      | ok r =>
        rw [hsr] at h1
        have h2 : (if r = [] then (pure m : Except PErr RuleMap)
            else pure (setVal m k r)) = .ok m' := h1
        by_cases hr : r = []
        · rw [if_pos hr] at h2
          have h3 : (Except.ok m : Except PErr RuleMap) = .ok m' := h2
          cases h3
          exact Or.inl rfl
        · rw [if_neg hr] at h2
          have h3 : (Except.ok (setVal m k r) : Except PErr RuleMap)
              = .ok m' := h2
          cases h3
          exact Or.inr ⟨k, r, rfl, hnull, rfl, hr, rfl⟩

theorem srm_step_nodup {mangles : List MangleRule} {ipv : Nat}
    {qdiscs classes : List ParamMap} :
    ∀ (m : RuleMap) (fp : ParamMap) (m' : RuleMap), nodupKeys m →
      srm_step mangles ipv qdiscs classes m fp = .ok m' → nodupKeys m' := by
  intro m fp m' hm h
  rcases srm_step_cases h with h1 | ⟨k, r, _, _, _, _, h5⟩
  · rw [h1]; exact hm
  · rw [h5]; exact nodupKeys_setVal k r hm

theorem is_null_str_empty : is_null_str "" = true := by decide

theorem srm_step_no_null_key {mangles : List MangleRule} {ipv : Nat}
    {qdiscs classes : List ParamMap} :
    ∀ (m : RuleMap) (fp : ParamMap) (m' : RuleMap), getVal m "" = none →
      srm_step mangles ipv qdiscs classes m fp = .ok m' →
      getVal m' "" = none := by
  intro m fp m' hm h
  rcases srm_step_cases h with h1 | ⟨k, r, _, h2, _, _, h5⟩
  · rw [h1]; exact hm
  · rw [h5]
    have hkne : ("" : String) ≠ k := by
      intro he
      rw [← he] at h2
      rw [is_null_str_empty] at h2
      cases h2
    rw [getVal_setVal_ne m r hkne]
    exact hm

theorem shaping_rule_for_keys {qdiscs classes : List ParamMap}
    {fp r : ParamMap}
    (hq : ∀ q ∈ qdiscs, getVal q CLASS_ID = none)
    (hc : ∀ c ∈ classes, getVal c PARENT = none ∧ getVal c HANDLE = none)
    (h : shaping_rule_for qdiscs classes fp = .ok r) :
    ∀ e ∈ r, e.1 ≠ PARENT ∧ e.1 ≠ HANDLE ∧ e.1 ≠ CLASS_ID := by
  have hr := shaping_rule_for_eq_spec h
  subst hr
  unfold merged_params_spec
  rw [foldl_updateMap_flatten, foldl_updateMap_flatten]
  intro e he
  rcases mem_updateMap he with he | he
  · rcases mem_updateMap he with he | he
    · simp at he
    · rcases List.mem_flatten.mp he with ⟨b, hb, heb⟩
      rcases List.mem_map.mp hb with ⟨q, hq1, rfl⟩
      unfold strip_qdisc_param at heb
      have h1 := mem_delKey heb
      have h2 := mem_delKey h1.1
      have hq2 := hq q (List.mem_filter.mp hq1).1
      exact ⟨h2.2, h1.2, getVal_eq_none_key_ne hq2 e h2.1⟩
  · rcases List.mem_flatten.mp he with ⟨b, hb, heb⟩
    rcases List.mem_map.mp hb with ⟨c, hc1, rfl⟩
    have h1 := mem_delKey heb
    have hc2 := hc c (List.mem_filter.mp hc1).1
    exact ⟨getVal_eq_none_key_ne hc2.1 e h1.1,
      getVal_eq_none_key_ne hc2.2 e h1.1, h1.2⟩

theorem find_mark_rule_first :
    ∀ (l1 : List MangleRule) (m : MangleRule) (l2 : List MangleRule)
      (h : Int), (∀ m' ∈ l1, m'.mark_id ≠ h) → m.mark_id = h →
      find_mark_rule h (l1 ++ m :: l2) = .ok m := by
  intro l1
  induction l1 with
  | nil =>
    intro m l2 h _ hm
    simp [find_mark_rule, hm]
  | cons a l1 ih =>
    intro m l2 h hpre hm
    have ha : ¬a.mark_id = h := hpre a (List.mem_cons_self _ _)
    cases l1 with
    | nil =>
      simp only [List.nil_append, List.cons_append, find_mark_rule,
        if_neg ha]
      exact ih m l2 h (by intro m' hm'; cases hm') hm
    | cons b t =>
      have hrest := ih m l2 h
        (fun m' hm' => hpre m' (List.mem_cons_of_mem _ hm')) hm
      simp only [List.cons_append, find_mark_rule, if_neg ha]
      exact hrest

/-! ### Except helpers -/

theorem except_bind_ok {ε α β : Type} (a : α) (f : α → Except ε β) :
    (Except.ok a : Except ε α) >>= f = f a := rfl

theorem except_pure_eq {ε α : Type} (a : α) :
    (pure a : Except ε α) = Except.ok a := rfl

theorem bind_ok_elim {ε α β : Type} {x : Except ε α} {f : α → Except ε β}
    {r : β} (h : x >>= f = .ok r) : ∃ a, x = .ok a ∧ f a = .ok r := by
  cases x with
  | error e =>
    have h' : (Except.error e : Except ε β) = .ok r := h
    cases h'
  | ok a => exact ⟨a, rfl, h⟩

theorem srm_step_insert {mangles : List MangleRule} {ipv : Nat}
    {qdiscs classes : List ParamMap} {m : RuleMap} {fp : ParamMap}
    {k : String} {r : ParamMap}
    (hk : get_filter_key mangles ipv fp = .ok k)
    (hnull : is_null_str k = false)
    (hr : shaping_rule_for qdiscs classes fp = .ok r) (hrne : r ≠ []) :
    srm_step mangles ipv qdiscs classes m fp = .ok (setVal m k r) := by
  unfold srm_step
  rw [hk, except_bind_ok, hnull]
  simp only [Bool.false_eq_true, if_false]
  rw [hr, except_bind_ok, if_neg hrne]
  rfl

theorem delKey_sublist {α : Type} (k : String) :
    ∀ (d : List (String × α)), List.Sublist (delKey k d) d := by
  intro d
  induction d with
  | nil => simp [delKey]
  | cons p rest ih =>
    obtain ⟨k', v'⟩ := p
    by_cases h : k' = k
    · simp only [delKey, if_pos h]
      exact ih.cons _
    · simp only [delKey, if_neg h]
      exact ih.cons₂ _

theorem nodupKeys_delKey {α : Type} {d : List (String × α)} (k : String)
    (h : nodupKeys d) : nodupKeys (delKey k d) :=
  List.Nodup.sublist (List.Sublist.map Prod.fst (delKey_sublist k d)) h

/-! ### Shapes of the direct-key item groups -/

theorem src_network_items_nil {ipv : Nat} {fp : ParamMap}
    (h : is_not_null_string (pyGet fp SRC_NETWORK) = false ∨
      is_anywhere_pv (pyGet fp SRC_NETWORK) ipv = true) :
    src_network_items ipv fp = .ok [] := by
  unfold src_network_items
  have hc : (is_not_null_string (pyGet fp SRC_NETWORK)
      && !is_anywhere_pv (pyGet fp SRC_NETWORK) ipv) = false := by
    rcases h with h | h <;> simp [h]
  rw [hc]
  simp only [Bool.false_eq_true, if_false]
  rfl

theorem dst_network_items_nil {fp : ParamMap}
    (h : is_not_null_string (pyGet fp DST_NETWORK) = false) :
    dst_network_items fp = .ok [] := by
  unfold dst_network_items
  rw [h]
  simp only [Bool.false_eq_true, if_false]
  rfl

theorem src_port_items_nil {fp : ParamMap}
    (h : is_integer_type (pyGet fp SRC_PORT) = false) :
    src_port_items fp = .ok [] := by
  unfold src_port_items
  rw [h]
  simp only [Bool.false_eq_true, if_false]
  rfl

theorem dst_port_items_nil {fp : ParamMap}
    (h : is_integer_type (pyGet fp DST_PORT) = false) :
    dst_port_items fp = .ok [] := by
  unfold dst_port_items
  rw [h]
  simp only [Bool.false_eq_true, if_false]
  rfl

theorem protocol_items_nil {fp : ParamMap}
    (h : is_not_null_string (pyGet fp PROTOCOL) = false) :
    protocol_items fp = .ok [] := by
  unfold protocol_items
  rw [h]
  simp only [Bool.false_eq_true, if_false]
  rfl

theorem src_network_items_shape {ipv : Nat} {fp : ParamMap}
    {a : List String} (h : src_network_items ipv fp = .ok a) :
    a = [] ∨ ∃ s, a = [SRC_NETWORK ++ "=" ++ s] := by
  unfold src_network_items at h
  cases hc : (is_not_null_string (pyGet fp SRC_NETWORK)
      && !is_anywhere_pv (pyGet fp SRC_NETWORK) ipv) with
  | false =>
    rw [hc] at h
    simp only [Bool.false_eq_true, if_false] at h
    have h' : (Except.ok ([] : List String) : Except PErr (List String))
        = .ok a := h
    cases h'
    exact Or.inl rfl
  | true =>
    rw [hc] at h
    simp only [if_true] at h
    obtain ⟨s, _, h2⟩ := bind_ok_elim h
    have h3 : (Except.ok [SRC_NETWORK ++ "=" ++ s] :
        Except PErr (List String)) = .ok a := h2
    cases h3
    exact Or.inr ⟨s, rfl⟩

theorem dst_network_items_shape {fp : ParamMap} {a : List String}
    (h : dst_network_items fp = .ok a) :
    a = [] ∨ ∃ s, a = [DST_NETWORK ++ "=" ++ s] := by
  unfold dst_network_items at h
  cases hc : is_not_null_string (pyGet fp DST_NETWORK) with
  | false =>
    rw [hc] at h
    simp only [Bool.false_eq_true, if_false] at h
    have h' : (Except.ok ([] : List String) : Except PErr (List String))
        = .ok a := h
    cases h'
    exact Or.inl rfl
  | true =>
    rw [hc] at h
    simp only [if_true] at h
    obtain ⟨s, _, h2⟩ := bind_ok_elim h
    have h3 : (Except.ok [DST_NETWORK ++ "=" ++ s] :
        Except PErr (List String)) = .ok a := h2
    cases h3
    exact Or.inr ⟨s, rfl⟩

theorem src_port_items_shape {fp : ParamMap} {a : List String}
    (h : src_port_items fp = .ok a) :
    a = [] ∨ ∃ s, a = [SRC_PORT ++ "=" ++ s] := by
  unfold src_port_items at h
  cases hc : is_integer_type (pyGet fp SRC_PORT) with
  | false =>
    rw [hc] at h
    simp only [Bool.false_eq_true, if_false] at h
    have h' : (Except.ok ([] : List String) : Except PErr (List String))
        = .ok a := h
    cases h'
    exact Or.inl rfl
  | true =>
    rw [hc] at h
    simp only [if_true] at h
    obtain ⟨s, _, h2⟩ := bind_ok_elim h
    have h3 : (Except.ok [SRC_PORT ++ "=" ++ s] :
        Except PErr (List String)) = .ok a := h2
    cases h3
    exact Or.inr ⟨s, rfl⟩

theorem dst_port_items_shape {fp : ParamMap} {a : List String}
    (h : dst_port_items fp = .ok a) :
    a = [] ∨ ∃ s, a = [DST_PORT ++ "=" ++ s] := by
  unfold dst_port_items at h
  cases hc : is_integer_type (pyGet fp DST_PORT) with
  | false =>
    rw [hc] at h
    simp only [Bool.false_eq_true, if_false] at h
    have h' : (Except.ok ([] : List String) : Except PErr (List String))
        = .ok a := h
    cases h'
    exact Or.inl rfl
  | true =>
    rw [hc] at h
    simp only [if_true] at h
    obtain ⟨s, _, h2⟩ := bind_ok_elim h
    have h3 : (Except.ok [DST_PORT ++ "=" ++ s] :
        Except PErr (List String)) = .ok a := h2
    cases h3
    exact Or.inr ⟨s, rfl⟩

theorem protocol_items_shape {fp : ParamMap} {a : List String}
    (h : protocol_items fp = .ok a) :
    a = [] ∨ ∃ s, a = [PROTOCOL ++ "=" ++ s] := by
  unfold protocol_items at h
  cases hc : is_not_null_string (pyGet fp PROTOCOL) with
  | false =>
    rw [hc] at h
    simp only [Bool.false_eq_true, if_false] at h
    have h' : (Except.ok ([] : List String) : Except PErr (List String))
        = .ok a := h
    cases h'
    exact Or.inl rfl
  | true =>
    rw [hc] at h
    simp only [if_true] at h
    obtain ⟨s, _, h2⟩ := bind_ok_elim h
    have h3 : (Except.ok [PROTOCOL ++ "=" ++ s] :
        Except PErr (List String)) = .ok a := h2
    cases h3
    exact Or.inr ⟨s, rfl⟩

/-! ### Field order of key items -/

theorem string_data_append (a b : String) :
    (a ++ b).data = a.data ++ b.data := by
  cases a
  cases b
  rfl

theorem takeWhile_ne_eq :
    ∀ (k v : List Char), (∀ c ∈ k, c ≠ '=') →
      (k ++ '=' :: v).takeWhile (fun c => c ≠ '=') = k := by
  intro k
  induction k with
  | nil =>
    intro v _
    rfl
  | cons c k ih =>
    intro v h
    have hc : c ≠ '=' := h c (List.mem_cons_self _ _)
    have hpc : (decide (c ≠ '=')) = true := by simp [hc]
    simp only [List.cons_append, List.takeWhile_cons, hpc, if_true]
    rw [ih v fun c hc' => h c (List.mem_cons_of_mem _ hc')]

theorem itemField_eq (k s : String) (hk : ∀ c ∈ k.data, c ≠ '=') :
    itemField (k ++ "=" ++ s) = k.data := by
  unfold itemField
  rw [string_data_append, string_data_append, List.append_assoc]
  exact takeWhile_ne_eq k.data s.data hk

theorem key_field_index_src (s : String) :
    key_field_index (SRC_NETWORK ++ "=" ++ s) = 0 := by
  unfold key_field_index
  rw [itemField_eq SRC_NETWORK s (by decide), if_pos rfl]

theorem key_field_index_dst (s : String) :
    key_field_index (DST_NETWORK ++ "=" ++ s) = 1 := by
  unfold key_field_index
  rw [itemField_eq DST_NETWORK s (by decide)]
  rw [if_neg (by decide), if_pos rfl]

theorem key_field_index_sport (s : String) :
    key_field_index (SRC_PORT ++ "=" ++ s) = 2 := by
  unfold key_field_index
  rw [itemField_eq SRC_PORT s (by decide)]
  rw [if_neg (by decide), if_neg (by decide), if_pos rfl]

theorem key_field_index_dport (s : String) :
    key_field_index (DST_PORT ++ "=" ++ s) = 3 := by
  unfold key_field_index
  rw [itemField_eq DST_PORT s (by decide)]
  rw [if_neg (by decide), if_neg (by decide), if_neg (by decide),
    if_pos rfl]

theorem key_field_index_proto (s : String) :
    key_field_index (PROTOCOL ++ "=" ++ s) = 4 := by
  unfold key_field_index
  rw [itemField_eq PROTOCOL s (by decide)]
  rw [if_neg (by decide), if_neg (by decide), if_neg (by decide),
    if_neg (by decide)]

/-! ### Claims -/

/-- C1: the claim says an unmatched handle aborts with an explicit error
naming the unmatched FilterRecord, in particular when the mangle table is
empty. The code does abort, but `raise ValueError("mangle mark not found:
...".format(mangle))` formats the loop variable `mangle`: with a non-empty
table the error names the last-scanned mangle rule, not the filter record,
and with an empty table the loop variable is unbound, so the reconstruction
dies on the unbound name instead of the intended error. This theorem
evaluates the embedded key resolution at both failing inputs. -/
theorem claim_c1_code_divergence :
    get_filter_key [] 4 [(HANDLE, PValue.vStr "100")]
      = .error .unboundLocal ∧
    get_filter_key [⟨7, none, "192.0.2.0/24", "tcp"⟩] 4
        [(HANDLE, PValue.vStr "100")]
      = .error (.unmatchedMark ⟨7, none, "192.0.2.0/24", "tcp"⟩) :=
  ⟨rfl, rfl⟩

/-- C2: whenever the per-filter parameter join succeeds, the merged
mapping equals the spec's description — the union of the stripped
parameters of every matching qdisc record, updated by the parameters of
every matching class record with `classid` removed — and on any key also
present in the class-derived part, the class-derived value is the one in
the result. -/
theorem claim_c2_merge_refines_spec {qdiscs classes : List ParamMap}
    {fp r : ParamMap} (h : shaping_rule_for qdiscs classes fp = .ok r) :
    r = merged_params_spec qdiscs classes fp ∧
    ∀ k, (getVal (class_part_spec classes fp) k).isSome →
      getVal r k = getVal (class_part_spec classes fp) k := by
  have h1 := shaping_rule_for_eq_spec h
  refine ⟨h1, fun k hs => ?_⟩
  rw [h1]
  exact getVal_merged_class_part qdiscs classes fp k hs

/-- C2 witness: a qdisc record and a class record both match flow `1:10`;
the merged result takes `limit` from the class record (the qdisc's value
is overwritten) and keeps both records' other fields. -/
theorem claim_c2_witness :
    ([("limit", PValue.vStr "20"), ("delay", PValue.vStr "100ms"),
      ("rate", PValue.vStr "1Mbit")] : ParamMap)
      = merged_params_spec
          [[(PARENT, PValue.vStr "1:10"), (HANDLE, PValue.vStr "10:"),
            ("limit", PValue.vStr "10"), ("delay", PValue.vStr "100ms")]]
          [[(CLASS_ID, PValue.vStr "1:10"), ("limit", PValue.vStr "20"),
            ("rate", PValue.vStr "1Mbit")]]
          [(FLOW_ID, PValue.vStr "1:10")] ∧
    getVal ([("limit", PValue.vStr "20"), ("delay", PValue.vStr "100ms"),
      ("rate", PValue.vStr "1Mbit")] : ParamMap) "limit"
      = getVal (class_part_spec
          [[(CLASS_ID, PValue.vStr "1:10"), ("limit", PValue.vStr "20"),
            ("rate", PValue.vStr "1Mbit")]]
          [(FLOW_ID, PValue.vStr "1:10")]) "limit" :=
  ⟨(@claim_c2_merge_refines_spec
      [[(PARENT, PValue.vStr "1:10"), (HANDLE, PValue.vStr "10:"),
        ("limit", PValue.vStr "10"), ("delay", PValue.vStr "100ms")]]
      [[(CLASS_ID, PValue.vStr "1:10"), ("limit", PValue.vStr "20"),
        ("rate", PValue.vStr "1Mbit")]]
      [(FLOW_ID, PValue.vStr "1:10")]
      [("limit", PValue.vStr "20"), ("delay", PValue.vStr "100ms"),
       ("rate", PValue.vStr "1Mbit")] rfl).1,
    (@claim_c2_merge_refines_spec
      [[(PARENT, PValue.vStr "1:10"), (HANDLE, PValue.vStr "10:"),
        ("limit", PValue.vStr "10"), ("delay", PValue.vStr "100ms")]]
      [[(CLASS_ID, PValue.vStr "1:10"), ("limit", PValue.vStr "20"),
        ("rate", PValue.vStr "1Mbit")]]
      [(FLOW_ID, PValue.vStr "1:10")]
      [("limit", PValue.vStr "20"), ("delay", PValue.vStr "100ms"),
       ("rate", PValue.vStr "1Mbit")] rfl).2 "limit" rfl⟩

/-- C3 counterexample: a FilterRecord carrying a handle resolves through a
mangle rule whose source network is present; the key items come out in the
order destination network, source network, protocol, so the source-network
field does not precede the destination-network field as the claim
requires. -/
theorem claim_c3_counterexample :
    filter_key_items [⟨1, some "10.0.0.0/8", "192.0.2.0/24", "tcp"⟩] 4
        [(HANDLE, PValue.vInt 1)]
      = .ok [DST_NETWORK ++ "=" ++ "192.0.2.0/24",
          SRC_NETWORK ++ "=" ++ "10.0.0.0/8", PROTOCOL ++ "=" ++ "tcp"] ∧
    ¬ (([DST_NETWORK ++ "=" ++ "192.0.2.0/24",
          SRC_NETWORK ++ "=" ++ "10.0.0.0/8",
          PROTOCOL ++ "=" ++ "tcp"].map key_field_index).Pairwise
        (· < ·)) := by
  constructor
  · rfl
  · decide

/-- C3 amended: key resolution is deterministic for every FilterRecord
(two resolutions of the same attributes give the same result), and for
every FilterRecord WITHOUT a handle the key's fields appear in the order
source network, dest network, source port, dest port, protocol;
handle-carrying records instead use the mangle order (dest network, source
network, protocol), as the counterexample shows. -/
theorem claim_c3_amended (mangles : List MangleRule) (ipv : Nat)
    (fp : ParamMap) :
    get_filter_key mangles ipv fp = get_filter_key mangles ipv fp ∧
    ((getVal fp HANDLE).isSome = false →
      ∀ items, filter_key_items mangles ipv fp = .ok items →
        (items.map key_field_index).Pairwise (· < ·)) := by
  refine ⟨rfl, ?_⟩
  intro hH items h
  unfold filter_key_items at h
  rw [hH] at h
  simp only [Bool.false_eq_true, if_false] at h
  unfold direct_key_items at h
  obtain ⟨a, ha, h⟩ := bind_ok_elim h
  obtain ⟨b, hb, h⟩ := bind_ok_elim h
  obtain ⟨c, hc, h⟩ := bind_ok_elim h
  obtain ⟨d, hd, h⟩ := bind_ok_elim h
  obtain ⟨e, he, h⟩ := bind_ok_elim h
  have hitems : a ++ b ++ c ++ d ++ e = items := by
    have h' : (Except.ok (a ++ b ++ c ++ d ++ e) :
        Except PErr (List String)) = .ok items := h
    cases h'
    rfl
  subst hitems
  rcases src_network_items_shape ha with rfl | ⟨s1, rfl⟩ <;>
    rcases dst_network_items_shape hb with rfl | ⟨s2, rfl⟩ <;>
    rcases src_port_items_shape hc with rfl | ⟨s3, rfl⟩ <;>
    rcases dst_port_items_shape hd with rfl | ⟨s4, rfl⟩ <;>
    rcases protocol_items_shape he with rfl | ⟨s5, rfl⟩ <;>
    simp [key_field_index_src, key_field_index_dst, key_field_index_sport,
      key_field_index_dport, key_field_index_proto]

/-- C3 amended witness: the amended theorem applied to a concrete
handle-less record with a source network, a destination network and a
protocol. -/
theorem claim_c3_witness :
    get_filter_key [] 4
        [(SRC_NETWORK, PValue.vStr "10.0.0.0/8"),
         (DST_NETWORK, PValue.vStr "192.0.2.0/24"),
         (PROTOCOL, PValue.vStr "ip")]
      = get_filter_key [] 4
        [(SRC_NETWORK, PValue.vStr "10.0.0.0/8"),
         (DST_NETWORK, PValue.vStr "192.0.2.0/24"),
         (PROTOCOL, PValue.vStr "ip")] ∧
    (([SRC_NETWORK ++ "=" ++ "10.0.0.0/8",
       DST_NETWORK ++ "=" ++ "192.0.2.0/24",
       PROTOCOL ++ "=" ++ "ip"].map key_field_index).Pairwise (· < ·)) :=
  ⟨(claim_c3_amended [] 4
      [(SRC_NETWORK, PValue.vStr "10.0.0.0/8"),
       (DST_NETWORK, PValue.vStr "192.0.2.0/24"),
       (PROTOCOL, PValue.vStr "ip")]).1,
    (claim_c3_amended [] 4
      [(SRC_NETWORK, PValue.vStr "10.0.0.0/8"),
       (DST_NETWORK, PValue.vStr "192.0.2.0/24"),
       (PROTOCOL, PValue.vStr "ip")]).2 rfl
      [SRC_NETWORK ++ "=" ++ "10.0.0.0/8",
       DST_NETWORK ++ "=" ++ "192.0.2.0/24",
       PROTOCOL ++ "=" ++ "ip"] rfl⟩

/-- C4: when a FilterRecord carries a handle and several mangle rules
share its mark id, the key is built from exactly the first matching rule
in table order; later rules (matching or not) contribute nothing. -/
theorem claim_c4_first_match {mangles1 mangles2 : List MangleRule}
    {m : MangleRule} {fp : ParamMap} {h : Int} {ipv : Nat}
    (hmem : (getVal fp HANDLE).isSome = true)
    (hh : toHandleInt (pyGet fp HANDLE) = .ok h)
    (hpre : ∀ m' ∈ mangles1, m'.mark_id ≠ h) (hm : m.mark_id = h) :
    get_filter_key (mangles1 ++ m :: mangles2) ipv fp
      = .ok (String.intercalate ", " (mangle_key_items m)) := by
  unfold get_filter_key filter_key_items
  rw [hmem]
  simp only [if_true]
  rw [hh, except_bind_ok,
    find_mark_rule_first mangles1 m mangles2 h hpre hm, except_bind_ok]
  rfl

/-- C4 witness: the handle `1` skips a non-matching rule, stops at the
first matching rule, and ignores a later rule that also has mark id 1. -/
theorem claim_c4_witness :
    get_filter_key
        [⟨2, none, "d1", "tcp"⟩, ⟨1, some "s", "d2", "udp"⟩,
         ⟨1, none, "d3", "ip"⟩] 4 [(HANDLE, PValue.vInt 1)]
      = .ok (String.intercalate ", "
          (mangle_key_items ⟨1, some "s", "d2", "udp"⟩)) :=
  @claim_c4_first_match [⟨2, none, "d1", "tcp"⟩] [⟨1, none, "d3", "ip"⟩]
    ⟨1, some "s", "d2", "udp"⟩ [(HANDLE, PValue.vInt 1)] 1 4
    rfl rfl (by decide) rfl

/-- C5: when the last filter record of a direction's filter list resolves
to a non-empty key `k` with a non-empty merged accumulator `r2`, a
successful reconstruction maps `k` to exactly `r2` — any earlier record
with the same key has been overwritten — and the output holds exactly one
entry for `k`. -/
theorem claim_c5_later_overwrites {mangles : List MangleRule} {ipv : Nat}
    {dev : Option String} {classes qdiscs : List ParamMap}
    {fs : List ParamMap} {f2 : ParamMap} {k : String} {r2 : ParamMap}
    {m : RuleMap}
    (hdev : is_null_dev dev = false)
    (hk : get_filter_key mangles ipv f2 = .ok k)
    (hnull : is_null_str k = false)
    (hr : shaping_rule_for qdiscs classes f2 = .ok r2) (hr2 : r2 ≠ [])
    (h : get_shaping_rule mangles ipv dev classes (fs ++ [f2]) qdiscs
      = .ok m) :
    getVal m k = some r2 ∧ countKey m k = 1 := by
  unfold get_shaping_rule at h
  rw [hdev] at h
  simp only [Bool.false_eq_true, if_false] at h
  rw [List.foldlM_append] at h
  obtain ⟨m0, hm0, h1⟩ := bind_ok_elim h
  have hnd0 : nodupKeys m0 :=
    except_foldlM_inv (srm_step mangles ipv qdiscs classes) nodupKeys
      srm_step_nodup fs [] m0 (by simp [nodupKeys, keysOf]) hm0
  simp only [List.foldlM_cons, List.foldlM_nil] at h1
  obtain ⟨m1, hm1, h2⟩ := bind_ok_elim h1
  have h3 : (Except.ok m1 : Except PErr RuleMap) = .ok m := h2
  cases h3
  have h4 := (srm_step_insert hk hnull hr hr2).symm.trans hm1
  have h5 : setVal m0 k r2 = m := by
    injection h4
  rw [← h5]
  constructor
  · exact getVal_setVal_self m0 k r2
  · exact countKey_eq_one (nodupKeys_setVal k r2 hnd0)
      (by rw [getVal_setVal_self]; rfl)

/-- C5 witness: two filter records resolve to the identical key
`dst-network=192.0.2.0/24, protocol=ip`; the output holds one entry for
that key, carrying the later record's merged parameters (`limit=20`, from
class `1:2`), not the earlier record's (`limit=10`). -/
theorem claim_c5_witness :
    getVal [("dst-network=192.0.2.0/24, protocol=ip",
        [("limit", PValue.vStr "20")])]
        "dst-network=192.0.2.0/24, protocol=ip"
      = some [("limit", PValue.vStr "20")] ∧
    countKey [("dst-network=192.0.2.0/24, protocol=ip",
        [("limit", PValue.vStr "20")])]
        "dst-network=192.0.2.0/24, protocol=ip" = 1 :=
  @claim_c5_later_overwrites [] 4 (some "eth0")
    [[(CLASS_ID, PValue.vStr "1:1"), ("limit", PValue.vStr "10")],
     [(CLASS_ID, PValue.vStr "1:2"), ("limit", PValue.vStr "20")]] []
    [[(DST_NETWORK, PValue.vStr "192.0.2.0/24"),
      (PROTOCOL, PValue.vStr "ip"), (FLOW_ID, PValue.vStr "1:1")]]
    [(DST_NETWORK, PValue.vStr "192.0.2.0/24"),
     (PROTOCOL, PValue.vStr "ip"), (FLOW_ID, PValue.vStr "1:2")]
    "dst-network=192.0.2.0/24, protocol=ip"
    [("limit", PValue.vStr "20")]
    [("dst-network=192.0.2.0/24, protocol=ip",
      [("limit", PValue.vStr "20")])]
    rfl rfl rfl rfl (by decide) rfl

/-- C6: a FilterRecord without a handle whose classification fields are
all absent or non-discriminating — the source network null or the
anywhere network, the destination network null, the ports not
integer-typed, the protocol null — resolves to the empty key; and no
successful reconstruction ever stores an entry under the empty-string
key. -/
theorem claim_c6_empty_key_excluded {mangles : List MangleRule}
    {ipv : Nat} {fp : ParamMap}
    (hH : getVal fp HANDLE = none)
    (hsrc : is_not_null_string (pyGet fp SRC_NETWORK) = false ∨
      is_anywhere_pv (pyGet fp SRC_NETWORK) ipv = true)
    (hdst : is_not_null_string (pyGet fp DST_NETWORK) = false)
    (hsp : is_integer_type (pyGet fp SRC_PORT) = false)
    (hdp : is_integer_type (pyGet fp DST_PORT) = false)
    (hproto : is_not_null_string (pyGet fp PROTOCOL) = false) :
    get_filter_key mangles ipv fp = .ok "" ∧
    ∀ (mangles' : List MangleRule) (ipv' : Nat) (dev : Option String)
      (classes filters qdiscs : List ParamMap) (m : RuleMap),
      get_shaping_rule mangles' ipv' dev classes filters qdiscs = .ok m →
      getVal m "" = none := by
  constructor
  · have hitems : filter_key_items mangles ipv fp = .ok [] := by
      unfold filter_key_items
      rw [hH]
      simp only [Option.isSome_none, Bool.false_eq_true, if_false]
      unfold direct_key_items
      rw [src_network_items_nil hsrc, except_bind_ok,
        dst_network_items_nil hdst, except_bind_ok,
        src_port_items_nil hsp, except_bind_ok,
        dst_port_items_nil hdp, except_bind_ok,
        protocol_items_nil hproto, except_bind_ok]
      rfl
    unfold get_filter_key
    rw [hitems]
    rfl
  · intro mangles' ipv' dev classes filters qdiscs m h
    unfold get_shaping_rule at h
    cases hd : is_null_dev dev with
    | true =>
      rw [hd] at h
      simp only [if_true] at h
      have h' : (Except.ok ([] : RuleMap) : Except PErr RuleMap)
          = .ok m := h
      cases h'
      rfl
    | false =>
      rw [hd] at h
      simp only [Bool.false_eq_true, if_false] at h
      exact except_foldlM_inv (srm_step mangles' ipv' qdiscs classes)
        (fun mm => getVal mm "" = none) srm_step_no_null_key
        filters [] m rfl h

/-- C6 witness: a record whose only field is the IPv4 anywhere source
network resolves to the empty key, and the empty reconstruction result has
no empty-string entry. -/
theorem claim_c6_witness :
    get_filter_key [] 4 [(SRC_NETWORK, PValue.vStr "0.0.0.0/0")]
      = .ok "" ∧
    getVal ([] : RuleMap) "" = none :=
  ⟨(@claim_c6_empty_key_excluded [] 4
      [(SRC_NETWORK, PValue.vStr "0.0.0.0/0")] rfl (Or.inr rfl) rfl rfl
      rfl rfl).1,
    (@claim_c6_empty_key_excluded [] 4
      [(SRC_NETWORK, PValue.vStr "0.0.0.0/0")] rfl (Or.inr rfl) rfl rfl
      rfl rfl).2 [] 4 (some "eth0") [] [] [] [] rfl⟩

/-- C7: when no IFB device is resolved (the device is absent or blank),
`get_tc_parameter` still succeeds — provided the outgoing side does — and
its entry for the device contains the INCOMING direction as a key bound to
the empty mapping: neither an error nor an absent key. -/
theorem claim_c7_incoming_empty {mangles : List MangleRule} {ipv : Nat}
    {device : String} {ifb_device : Option String}
    {oClasses oFilters oQdiscs iClasses iFilters iQdiscs : List ParamMap}
    {outv : RuleMap}
    (hifb : is_null_dev ifb_device = true)
    (hout : get_shaping_rule mangles ipv (some device)
      oClasses oFilters oQdiscs = .ok outv) :
    get_tc_parameter mangles ipv device ifb_device
        oClasses oFilters oQdiscs iClasses iFilters iQdiscs
      = .ok [(device, [(OUTGOING, outv), (INCOMING, [])])] := by
  unfold get_tc_parameter
  rw [hout, except_bind_ok]
  have hin : get_shaping_rule mangles ipv ifb_device
      iClasses iFilters iQdiscs = .ok [] := by
    unfold get_shaping_rule
    rw [if_pos hifb]
  rw [hin, except_bind_ok]
  rfl

/-- C7 witness: with no IFB device, the result still carries the INCOMING
key, bound to the empty mapping. -/
theorem claim_c7_witness :
    get_tc_parameter [] 4 "eth0" none [] [] [] [] [] []
      = .ok [("eth0", [(OUTGOING, []), (INCOMING, [])])] :=
  @claim_c7_incoming_empty [] 4 "eth0" none [] [] [] [] [] [] [] rfl rfl

/-- C8: with qdisc records free of `classid` and class records free of
`parent`/`handle` (the record shapes of the design document's data model),
every merged parameter mapping stored in a successful reconstruction
contains none of the join-only keys `parent`, `handle`, `classid`. -/
theorem claim_c8_join_keys_stripped {mangles : List MangleRule}
    {ipv : Nat} {dev : Option String}
    {classes filters qdiscs : List ParamMap} {m : RuleMap}
    (hq : ∀ q ∈ qdiscs, getVal q CLASS_ID = none)
    (hc : ∀ c ∈ classes, getVal c PARENT = none ∧ getVal c HANDLE = none)
    (h : get_shaping_rule mangles ipv dev classes filters qdiscs = .ok m) :
    ∀ p ∈ m, ∀ e ∈ p.2,
      e.1 ≠ PARENT ∧ e.1 ≠ HANDLE ∧ e.1 ≠ CLASS_ID := by
  unfold get_shaping_rule at h
  cases hd : is_null_dev dev with
  | true =>
    rw [hd] at h
    simp only [if_true] at h
    have h' : (Except.ok ([] : RuleMap) : Except PErr RuleMap) = .ok m := h
    cases h'
    intro p hp
    cases hp
  | false =>
    rw [hd] at h
    simp only [Bool.false_eq_true, if_false] at h
    have hstep : ∀ (mm : RuleMap) (fp : ParamMap) (mm' : RuleMap),
        (∀ p ∈ mm, ∀ e ∈ p.2,
          e.1 ≠ PARENT ∧ e.1 ≠ HANDLE ∧ e.1 ≠ CLASS_ID) →
        srm_step mangles ipv qdiscs classes mm fp = .ok mm' →
        ∀ p ∈ mm', ∀ e ∈ p.2,
          e.1 ≠ PARENT ∧ e.1 ≠ HANDLE ∧ e.1 ≠ CLASS_ID := by
      intro mm fp mm' hmm hs
      rcases srm_step_cases hs with h1 | ⟨k, r, _, _, hr, _, h5⟩
      · rw [h1]
        exact hmm
      · subst h5
        intro p hp
        rcases mem_setVal hp with hp | hp
        · exact hmm p hp
        · subst hp
          exact shaping_rule_for_keys hq hc hr
    exact except_foldlM_inv (srm_step mangles ipv qdiscs classes)
      (fun mm => ∀ p ∈ mm, ∀ e ∈ p.2,
        e.1 ≠ PARENT ∧ e.1 ≠ HANDLE ∧ e.1 ≠ CLASS_ID)
      hstep filters [] m (by intro p hp; cases hp) h

/-- C8 witness: a qdisc record carrying `parent` and a class record
carrying `classid` both feed one filter's merge; the stored mapping's keys
avoid all three join-only names. -/
theorem claim_c8_witness :
    ("limit" : String) ≠ PARENT ∧ ("limit" : String) ≠ HANDLE ∧
      ("limit" : String) ≠ CLASS_ID :=
  @claim_c8_join_keys_stripped [] 4 (some "eth0")
    [[(CLASS_ID, PValue.vStr "1:1"), ("rate", PValue.vStr "1M")]]
    [[(FLOW_ID, PValue.vStr "1:1"),
      (DST_NETWORK, PValue.vStr "192.0.2.0/24")]]
    [[(PARENT, PValue.vStr "1:1"), ("limit", PValue.vStr "10")]]
    [("dst-network=192.0.2.0/24",
      [("limit", PValue.vStr "10"), ("rate", PValue.vStr "1M")])]
    (by decide) (by decide) rfl
    ("dst-network=192.0.2.0/24",
      [("limit", PValue.vStr "10"), ("rate", PValue.vStr "1M")])
    (by decide) ("limit", PValue.vStr "10") (by decide)

/-- C9: a successful `get_tc_parameter` result is exactly the per-device
two-direction mapping whose OUTGOING entry is the reconstruction over the
outgoing device's own parse results and whose INCOMING entry is the
reconstruction over the IFB device's own parse results: each direction's
join sees only records from its own parse, never the other direction's. -/
theorem claim_c9_direction_scoped {mangles : List MangleRule} {ipv : Nat}
    {device : String} {ifb_device : Option String}
    {oClasses oFilters oQdiscs iClasses iFilters iQdiscs : List ParamMap}
    {m : List (String × DirMap)}
    (h : get_tc_parameter mangles ipv device ifb_device
      oClasses oFilters oQdiscs iClasses iFilters iQdiscs = .ok m) :
    ∃ outv inv,
      get_shaping_rule mangles ipv (some device) oClasses oFilters oQdiscs
        = .ok outv ∧
      get_shaping_rule mangles ipv ifb_device iClasses iFilters iQdiscs
        = .ok inv ∧
      m = [(device, [(OUTGOING, outv), (INCOMING, inv)])] := by
  unfold get_tc_parameter at h
  obtain ⟨outv, ho, h1⟩ := bind_ok_elim h
  obtain ⟨inv, hi, h2⟩ := bind_ok_elim h1
  have h3 : (Except.ok [(device, [(OUTGOING, outv), (INCOMING, inv)])] :
      Except PErr (List (String × DirMap))) = .ok m := h2
  cases h3
  exact ⟨outv, inv, ho, hi, rfl⟩

/-- C9 witness: the theorem applied to a concrete run; both directions'
entries are exactly their own (here empty) parses' reconstructions. -/
theorem claim_c9_witness :
    ∃ outv inv,
      get_shaping_rule [] 4 (some "eth0") [] [] [] = .ok outv ∧
      get_shaping_rule [] 4 (some "ifb0") [] [] [] = .ok inv ∧
      [("eth0", [(OUTGOING, ([] : RuleMap)), (INCOMING, ([] : RuleMap))])]
        = [("eth0", [(OUTGOING, outv), (INCOMING, inv)])] :=
  @claim_c9_direction_scoped [] 4 "eth0" (some "ifb0") [] [] [] [] [] []
    [("eth0", [(OUTGOING, []), (INCOMING, [])])] rfl

/-- C10: the join never consumes the parsed records: stripping operates on
copies, so one class record can match several filter records and
contribute its full parameter set (minus `classid`) to each. With two
filters bound to the same class, both output entries carry the class's
complete remaining parameters, each computed from the original record. -/
theorem claim_c10_records_reusable {mangles : List MangleRule} {ipv : Nat}
    {dev : Option String} {c f1 f2 : ParamMap} {k1 k2 : String}
    (hdev : is_null_dev dev = false)
    (hnd : nodupKeys c)
    (hk1 : get_filter_key mangles ipv f1 = .ok k1)
    (hn1 : is_null_str k1 = false)
    (hk2 : get_filter_key mangles ipv f2 = .ok k2)
    (hn2 : is_null_str k2 = false)
    (hne : k1 ≠ k2)
    (hm1 : class_matches f1 c = true) (hm2 : class_matches f2 c = true)
    (hcid : (getVal c CLASS_ID).isSome = true)
    (hrem : delKey CLASS_ID c ≠ []) :
    get_shaping_rule mangles ipv dev [c] [f1, f2] []
      = .ok [(k1, delKey CLASS_ID c), (k2, delKey CLASS_ID c)] := by
  have hndd : nodupKeys (delKey CLASS_ID c) := nodupKeys_delKey CLASS_ID hnd
  have hsr : ∀ f : ParamMap, class_matches f c = true →
      shaping_rule_for [] [c] f = .ok (delKey CLASS_ID c) := by
    intro f hmf
    unfold shaping_rule_for
    have hstep : class_merge_step f [] c = .ok (delKey CLASS_ID c) := by
      unfold class_merge_step
      rw [hmf]
      simp only [if_true]
      unfold delKeyE
      rw [if_pos hcid, except_bind_ok, except_pure_eq,
        updateMap_nil_left hndd]
    simp only [List.foldl_nil, List.foldlM_cons, List.foldlM_nil]
    rw [hstep, except_bind_ok]
    rfl
  unfold get_shaping_rule
  rw [hdev]
  simp only [Bool.false_eq_true, if_false, List.foldlM_cons,
    List.foldlM_nil]
  rw [srm_step_insert hk1 hn1 (hsr f1 hm1) hrem, except_bind_ok]
  rw [srm_step_insert hk2 hn2 (hsr f2 hm2) hrem, except_bind_ok]
  have hset : setVal (setVal ([] : RuleMap) k1 (delKey CLASS_ID c)) k2
      (delKey CLASS_ID c)
      = [(k1, delKey CLASS_ID c), (k2, delKey CLASS_ID c)] := by
    simp [setVal, hne]
  rw [hset]
  rfl

/-- C10 witness: one class record matches two distinct filter records;
both output entries hold its full parameters minus `classid`. -/
theorem claim_c10_witness :
    get_shaping_rule [] 4 (some "eth0")
        [[(CLASS_ID, PValue.vStr "1:1"), ("rate", PValue.vStr "1M")]]
        [[(DST_NETWORK, PValue.vStr "d1"), (FLOW_ID, PValue.vStr "1:1")],
         [(DST_NETWORK, PValue.vStr "d2"), (FLOW_ID, PValue.vStr "1:1")]]
        []
      = .ok [("dst-network=d1", [("rate", PValue.vStr "1M")]),
          ("dst-network=d2", [("rate", PValue.vStr "1M")])] :=
  @claim_c10_records_reusable [] 4 (some "eth0")
    [(CLASS_ID, PValue.vStr "1:1"), ("rate", PValue.vStr "1M")]
    [(DST_NETWORK, PValue.vStr "d1"), (FLOW_ID, PValue.vStr "1:1")]
    [(DST_NETWORK, PValue.vStr "d2"), (FLOW_ID, PValue.vStr "1:1")]
    "dst-network=d1" "dst-network=d2"
    rfl (by unfold nodupKeys; decide) rfl rfl rfl rfl (by decide) rfl rfl
    rfl (by decide)

end TcShaping
